import Mathlib

/-
Verification of the HTTP-header-modifier extension's core logic.

The definitions below are a shallow embedding of the configuration
validator, domain parser, condition/rule compiler, rule reconciler,
save pipeline, export/import surface (src/extension-solid/src/App.tsx,
the full-featured copy of which is the authoritative source) and of the
background expiry scheduler (background.js).  JavaScript strings are
modelled as `List Char`; the regular expressions of the source are
modelled by equivalent structural predicates; JSON values are modelled
by the inductive `JValue` with rational numbers standing for the
(always finite) numbers produced by `JSON.parse`.
-/

set_option autoImplicit false

namespace HttpHeaderModifier

/-- Strings from the source are modelled as lists of characters. -/
abbrev Str := List Char

/-- Conversion from Lean string literals to the character-list model. -/
def str (s : String) : Str := s.data

/-- Split a character list at every separator character, keeping empty pieces,
as JavaScript `String.prototype.split` does. -/
def splitOnPred (p : Char → Bool) : Str → List Str
  | [] => [[]]
  | c :: rest =>
    if p c then [] :: splitOnPred p rest
    else
      match splitOnPred p rest with
      | [] => [[c]]
      | piece :: pieces => (c :: piece) :: pieces

/-- Whitespace trimming as in JavaScript `trim` (restricted to ASCII whitespace). -/
def jsTrim (s : Str) : Str :=
  ((s.dropWhile Char.isWhitespace).reverse.dropWhile Char.isWhitespace).reverse

/-- Lowercasing as in JavaScript `toLowerCase` (ASCII letters only). -/
def jsToLower (s : Str) : Str := s.map Char.toLower

/-- Insertion-order de-duplication with an accumulator of already-seen
elements: the model of `Array.from(new Set(parts))`, which keeps the first
occurrence of each element. -/
def dedupGo {α : Type} [DecidableEq α] (seen : List α) : List α → List α
  | [] => []
  | a :: rest => if a ∈ seen then dedupGo seen rest else a :: dedupGo (a :: seen) rest

/-- First-occurrence de-duplication, the model of `Array.from(new Set(·))`. -/
def dedupFirst {α : Type} [DecidableEq α] (l : List α) : List α := dedupGo [] l

/-- One row of the header table: `interface HeaderConfig` of the source. -/
structure HeaderConfig where
  key : Str
  value : Str
deriving DecidableEq, Repr

/-- `type DomainMatchMode = "exact" | "include_subdomains" | "subdomains_only"`. -/
inductive DomainMatchMode where
  | exact
  | include_subdomains
  | subdomains_only
deriving DecidableEq, Repr

/-- `const DEFAULT_HEADERS = [{ key: "", value: "" }]`. -/
def DEFAULT_HEADERS : List HeaderConfig := [⟨[], []⟩]

/-- Characters admitted by the token-grammar character class of
`HEADER_NAME_RE`: alphanumerics and the fifteen punctuation characters of
the class (the apostrophe is written `Char.ofNat 39`, the backquote
`Char.ofNat 96`). -/
def isHeaderNameChar (c : Char) : Bool :=
  c.isAlphanum || c = '!' || c = '#' || c = '$' || c = '%' || c = '&' ||
  c = Char.ofNat 39 || c = '*' || c = '+' || c = '.' || c = '^' || c = '_' ||
  c = Char.ofNat 96 || c = '|' || c = '~' || c = '-'

/-- Full-string match against `HEADER_NAME_RE`: one or more token characters. -/
def HEADER_NAME_RE (s : Str) : Bool := !s.isEmpty && s.all isHeaderNameChar

/-- Match of a single decimal octet against
`25[0-5]|2[0-4]\d|1\d\d|[1-9]?\d` (exact decomposition of the alternation). -/
def octetOK : Str → Bool
  | [a] => a.isDigit
  | [a, b] => ('1' ≤ a && a ≤ '9') && b.isDigit
  | [a, b, c] =>
      (a = '1' && b.isDigit && c.isDigit) ||
      (a = '2' && ('0' ≤ b && b ≤ '4') && c.isDigit) ||
      (a = '2' && b = '5' && ('0' ≤ c && c ≤ '5'))
  | _ => false

/-- Full-string match against `IPV4_RE`: four dot-separated octets.  The
octets contain no dots and the dots of the pattern are literal, so the
regular expression matches exactly when this decomposition does. -/
def IPV4_RE (s : Str) : Bool :=
  match splitOnPred (fun c => c = '.') s with
  | [a, b, c, d] => octetOK a && octetOK b && octetOK c && octetOK d
  | _ => false

/-- Match of one host label against `[a-z0-9](?:[a-z0-9-]{0,61}[a-z0-9])?`
under the `/i` flag: 1 to 63 characters, alphanumeric at both ends,
alphanumeric or hyphen in the middle. -/
def labelOK : Str → Bool
  | [] => false
  | c :: rest =>
    (rest.length + 1 ≤ 63) && c.isAlphanum &&
    (match rest.getLast? with
     | none => true
     | some lastC =>
        lastC.isAlphanum && rest.dropLast.all (fun m => m.isAlphanum || m = '-'))

/-- Match of the final label against `[a-z]{2,63}` under the `/i` flag. -/
def tldOK (s : Str) : Bool :=
  2 ≤ s.length && s.length ≤ 63 && s.all Char.isAlpha

/-- Full-string match against
`HOST_RE = /^(?:\*\.)?(?:[a-z0-9](?:[a-z0-9-]{0,61}[a-z0-9])?\.)+[a-z]{2,63}$/i`.
Labels contain no dots, `*` is not a label character and the dots of the
pattern are literal, so the regular expression matches exactly when this
dot-decomposition does. -/
def HOST_RE (s : Str) : Bool :=
  let core := match s with
    | '*' :: '.' :: rest => rest
    | other => other
  let parts := splitOnPred (fun c => c = '.') core
  match parts.getLast? with
  | none => false
  | some tld => 2 ≤ parts.length && parts.dropLast.all labelOK && tldOK tld

/-- `escapeRegex`: backslash-escape the regex metacharacters
(braces are `Char.ofNat 123` and `Char.ofNat 125`). -/
def escapeRegex (s : Str) : Str :=
  s.flatMap fun c =>
    if c = '.' || c = '*' || c = '+' || c = '?' || c = '^' || c = '$' ||
       c = Char.ofNat 123 || c = Char.ofNat 125 || c = '(' || c = ')' ||
       c = '|' || c = '[' || c = ']' || c = '\\'
    then ['\\', c] else [c]

/-- `stripWildcardPrefix`: drop one leading `*.` marker (`/^\*\./`). -/
def stripWildcardMarker : Str → Str
  | '*' :: '.' :: rest => rest
  | other => other

/-- `parseDomains`: split the raw text on newlines and commas, trim and
lowercase each piece, drop empties, and de-duplicate keeping first
occurrences (`Array.from(new Set(parts))`). -/
def parseDomains (value : Str) : List Str :=
  let parts :=
    ((splitOnPred (fun c => c = '\n' || c = ',') value).map
      (fun item => jsToLower (jsTrim item))).filter (fun item => !item.isEmpty)
  dedupFirst parts

/-- `isValidDomain`: `localhost`, an IPv4 literal, or a `HOST_RE` match. -/
def isValidDomain (domain : Str) : Bool :=
  if domain = str "localhost" then true
  else if IPV4_RE domain then true
  else HOST_RE domain

/-- `normalizeHeaders`: drop rows blank in both fields, trim both fields of
the remaining rows. -/
def normalizeHeaders (rawHeaders : List HeaderConfig) : List HeaderConfig :=
  (rawHeaders.filter
      (fun header => !(jsTrim header.key).isEmpty || !(jsTrim header.value).isEmpty)).map
    (fun header => ⟨jsTrim header.key, jsTrim header.value⟩)

/-- Digit-string value, most significant digit first. -/
def digitsVal (ds : Str) : Nat :=
  ds.foldl (fun acc c => acc * 10 + (c.toNat - 48)) 0

/-- The digit span at the start of the input, as consumed by
`Number.parseInt(·, 10)` after the optional sign: `none` when no digit
leads (JavaScript `NaN`). -/
def parseIntPos (s : Str) : Option Nat :=
  let ds := s.takeWhile Char.isDigit
  if ds.isEmpty then none else some (digitsVal ds)

/-- `Number.parseInt(s, 10)` on already-trimmed input: optional sign, then
the maximal leading digit span; `none` models `NaN`.  (JavaScript returns a
float and so loses precision beyond 2^53; every value affected by that is
far outside the accepted range `[0, 1440]`, so the behaviour visible to the
program is identical.) -/
def parseIntJS (s : Str) : Option Int :=
  match s with
  | [] => none
  | c :: rest =>
    if c = '-' then (parseIntPos rest).map (fun n => -(n : Int))
    else if c = '+' then (parseIntPos rest).map (fun n => (n : Int))
    else (parseIntPos (c :: rest)).map (fun n => (n : Int))

/-- `parseTemporaryMinutes`: blank input means `0`; otherwise
`Number.parseInt(·, 10)` must yield an integer in `[0, 1440]`, else `null`
(modelled as `none`). -/
def parseTemporaryMinutes (value : Str) : Option Int :=
  let trimmed := jsTrim value
  if trimmed.isEmpty then some 0
  else
    match parseIntJS trimmed with
    | none => none
    | some parsed => if parsed < 0 ∨ 1440 < parsed then none else some parsed

/-- The validation errors of `validateConfig`, one constructor per distinct
error message of the source. -/
inductive VError where
  | emptyField
  | invalidHeaderName (key : Str)
  | invalidHeaderValue (key : Str)
  | duplicateHeaderKey (key : Str)
  | invalidDomainPattern (domain : Str)
  | unsupportedModeForDomain (domain : Str)
  | invalidExpiryMinutes
deriving DecidableEq, Repr

/-- The exact error strings returned by the source (field `error` of the
`{ ok: false, error }` result). -/
def errorMessage : VError → Str
  | .emptyField => str "All non-empty headers must include both key and value."
  | .invalidHeaderName k => str "Invalid header key: " ++ k
  | .invalidHeaderValue k =>
      str "Invalid header value for " ++ k ++ str ": newline characters are not allowed."
  | .duplicateHeaderKey k => str "Duplicate header key: " ++ k
  | .invalidDomainPattern d => str "Invalid domain pattern: " ++ d
  | .unsupportedModeForDomain d =>
      str "Subdomains-only mode does not support " ++ d ++ str "."
  | .invalidExpiryMinutes => str "Temporary minutes must be an integer between 0 and 1440."

/-- `/[\r\n]/.test(value)`. -/
def hasCRLF (s : Str) : Bool := s.any (fun c => c = '\r' || c = '\n')

/-- The header loop of `validateConfig`: sequential per-entry checks with a
set (here: list) of already-seen case-folded keys. -/
def checkHeaders : List HeaderConfig → List Str → Except VError Unit
  | [], _ => .ok ()
  | header :: rest, keySet =>
    if header.key.isEmpty || header.value.isEmpty then .error .emptyField
    else if !HEADER_NAME_RE header.key then .error (.invalidHeaderName header.key)
    else if hasCRLF header.value then .error (.invalidHeaderValue header.key)
    else if jsToLower header.key ∈ keySet then .error (.duplicateHeaderKey header.key)
    else checkHeaders rest (jsToLower header.key :: keySet)

/-- The domain loop of `validateConfig`: pattern check, then the
mode-compatibility check for `subdomains_only`. -/
def checkDomains (mode : DomainMatchMode) : List Str → Except VError Unit
  | [] => .ok ()
  | domain :: rest =>
    if !isValidDomain domain then .error (.invalidDomainPattern domain)
    else if mode = .subdomains_only && (domain = str "localhost" || IPV4_RE domain) then
      .error (.unsupportedModeForDomain domain)
    else checkDomains mode rest

/-- `interface ValidatedPayload`. -/
structure ValidatedPayload where
  headers : List HeaderConfig
  domains : List Str
  temporaryMinutes : Int
deriving DecidableEq, Repr

/-- `validateConfig`: normalize headers, run the header checks, parse and
check the domains, parse the expiry minutes.  The `domainMatchMode` and
`temporaryMinutesInput` signals read inside the source function are passed
as arguments. -/
def validateConfig (rawHeaders : List HeaderConfig) (rawDomainInput : Str)
    (mode : DomainMatchMode) (temporaryMinutesInput : Str) :
    Except VError ValidatedPayload :=
  let normalizedHeaders := normalizeHeaders rawHeaders
  match checkHeaders normalizedHeaders [] with
  | .error e => .error e
  | .ok _ =>
    let domains := parseDomains rawDomainInput
    match checkDomains mode domains with
    | .error e => .error e
    | .ok _ =>
      match parseTemporaryMinutes temporaryMinutesInput with
      | none => .error .invalidExpiryMinutes
      | some temporaryMinutes => .ok ⟨normalizedHeaders, domains, temporaryMinutes⟩

/-- `chrome.declarativeNetRequest.ResourceType`: the enumeration whose
`Object.values` the source uses for every rule condition. -/
inductive ResourceType where
  | main_frame | sub_frame | stylesheet | script | image | font | object
  | xmlhttprequest | ping | csp_report | media | websocket | other
deriving DecidableEq, Repr

/-- `Object.values(chrome.declarativeNetRequest.ResourceType)`. -/
def allResourceTypes : List ResourceType :=
  [.main_frame, .sub_frame, .stylesheet, .script, .image, .font, .object,
   .xmlhttprequest, .ping, .csp_report, .media, .websocket, .other]

/-- `chrome.declarativeNetRequest.HeaderOperation.SET` (the only operation used). -/
inductive HeaderOperation where
  | set
deriving DecidableEq, Repr

/-- `chrome.declarativeNetRequest.RuleActionType.MODIFY_HEADERS` (the only type used). -/
inductive RuleActionType where
  | modify_headers
deriving DecidableEq, Repr

/-- One entry of `action.requestHeaders`. -/
structure RequestHeaderAction where
  header : Str
  operation : HeaderOperation
  value : Str
deriving DecidableEq, Repr

/-- `action` of a declarative rule. -/
structure RuleAction where
  type : RuleActionType
  requestHeaders : List RequestHeaderAction
deriving DecidableEq, Repr

/-- `chrome.declarativeNetRequest.RuleCondition` as used by the source:
absent fields are `none` (JSON serialization omits them). -/
structure RuleCondition where
  urlFilter : Option Str
  regexFilter : Option Str
  resourceTypes : List ResourceType
deriving DecidableEq, Repr

/-- `chrome.declarativeNetRequest.Rule` as used by the source. -/
structure Rule where
  id : Nat
  priority : Nat
  action : RuleAction
  condition : RuleCondition
deriving DecidableEq, Repr

/-- `buildCondition`: strip a leading `*.`, then produce a `urlFilter`
prefix condition for `include_subdomains` or an anchored `regexFilter` for
the other two modes. -/
def buildCondition (domain : Str) (mode : DomainMatchMode) : RuleCondition :=
  let normalizedDomain := stripWildcardMarker domain
  match mode with
  | .include_subdomains =>
      ⟨some (str "||" ++ normalizedDomain ++ str "/"), none, allResourceTypes⟩
  | .exact =>
      ⟨none,
       some (str "^https?:\\/\\/" ++ escapeRegex normalizedDomain ++ str "(?::\\d+)?\\/"),
       allResourceTypes⟩
  | .subdomains_only =>
      ⟨none,
       some (str "^https?:\\/\\/(?:[^./]+\\.)+" ++ escapeRegex normalizedDomain ++
         str "(?::\\d+)?\\/"),
       allResourceTypes⟩

/-- `buildRule`: priority 1, one SET action per configured header. -/
def buildRule (id : Nat) (validHeaders : List HeaderConfig) (condition : RuleCondition) : Rule :=
  ⟨id, 1,
   ⟨.modify_headers, validHeaders.map (fun header => ⟨header.key, .set, header.value⟩)⟩,
   condition⟩

/-- The condition `{ urlFilter: "*", resourceTypes }` used for the single
global rule when no domain is configured. -/
def globalAllUrlsCondition : RuleCondition :=
  ⟨some (str "*"), none, allResourceTypes⟩

/-- The `desiredRules` computation at the head of `updateRules`: no rules
when disabled or no headers survive; one global rule when no domain is
configured; otherwise one rule per domain with ids `index + 1`. -/
def desiredRulesFor (validHeaders : List HeaderConfig) (ruleDomains : List Str)
    (isEnabled : Bool) (mode : DomainMatchMode) : List Rule :=
  if !isEnabled || validHeaders.length = 0 then []
  else if ruleDomains.length = 0 then [buildRule 1 validHeaders globalAllUrlsCondition]
  else ruleDomains.enum.map
    (fun p => buildRule (p.1 + 1) validHeaders (buildCondition p.2 mode))

/-- `serializeRule`: `JSON.stringify({priority, action, condition})`.  On
this fixed shape `JSON.stringify` is deterministic and injective, so the
serialization is modelled by the triple itself; the `id` field is not part
of it. -/
def serializeRule (rule : Rule) : Nat × RuleAction × RuleCondition :=
  (rule.priority, rule.action, rule.condition)

/-- Lookup in a `Map` built by inserting `(rule.id, rule)` pairs in list
order: a later entry with the same id overwrites an earlier one. -/
def mapLookup (rules : List Rule) (i : Nat) : Option Rule :=
  match rules with
  | [] => none
  | rule :: rest =>
    match mapLookup rest i with
    | some found => some found
    | none => if rule.id = i then some rule else none

/-- The delta computed by `updateRules` before the service call. -/
structure ReconcileResult where
  removeRuleIds : List Nat
  addRules : List Rule
deriving DecidableEq, Repr

/-- The diff of `updateRules`: remove every installed rule whose id is
absent from the desired map or whose serialization changed; add every
desired rule whose id is absent from the installed map or whose
serialization changed. -/
def computeDelta (existingRules desiredRules : List Rule) : ReconcileResult :=
  ⟨(existingRules.filter fun rule =>
      match mapLookup desiredRules rule.id with
      | none => true
      | some desiredRule => serializeRule desiredRule != serializeRule rule).map Rule.id,
   desiredRules.filter fun rule =>
      match mapLookup existingRules rule.id with
      | none => true
      | some existingRule => serializeRule existingRule != serializeRule rule⟩

/-- `updateRules` up to the service boundary: `none` models the early
return that skips the `updateDynamicRules` call when both delta parts are
empty, `some` carries the arguments of the one call made otherwise. -/
def updateRules (existingRules : List Rule) (validHeaders : List HeaderConfig)
    (ruleDomains : List Str) (isEnabled : Bool) (mode : DomainMatchMode) :
    Option (List Nat × List Rule) :=
  let desiredRules := desiredRulesFor validHeaders ruleDomains isEnabled mode
  let delta := computeDelta existingRules desiredRules
  if delta.removeRuleIds.isEmpty && delta.addRules.isEmpty then none
  else some (delta.removeRuleIds, delta.addRules)

/-- Effect of `chrome.declarativeNetRequest.updateDynamicRules` on the rule
table: remove the listed ids, then append the added rules. -/
def applyDeltaTable (table : List Rule) (removeRuleIds : List Nat) (addRules : List Rule) :
    List Rule :=
  table.filter (fun rule => rule.id ∉ removeRuleIds) ++ addRules

/-- The rule table after a run of `updateRules` (unchanged when the service
call is skipped). -/
def updateRulesStep (existingRules : List Rule) (validHeaders : List HeaderConfig)
    (ruleDomains : List Str) (isEnabled : Bool) (mode : DomainMatchMode) : List Rule :=
  match updateRules existingRules validHeaders ruleDomains isEnabled mode with
  | none => existingRules
  | some (removeRuleIds, addRules) => applyDeltaTable existingRules removeRuleIds addRules

/-- `interface StoredConfig`: the persisted key/value record. -/
structure StoredConfig where
  headers : List HeaderConfig
  enabled : Bool
  domains : List Str
  domainMatchMode : DomainMatchMode
  temporaryUntil : Option Int
deriving DecidableEq, Repr

/-- The external state touched by a save: the persisted configuration, the
installed dynamic-rule table, and the one named expiry alarm (`none` when
no alarm is armed). -/
structure SysState where
  storage : StoredConfig
  installedRules : List Rule
  alarm : Option Int
deriving DecidableEq, Repr

/-- The UI signals read by `saveConfig` and `exportConfig`. -/
structure UiState where
  headers : List HeaderConfig
  enabled : Bool
  domainInput : Str
  domainMatchMode : DomainMatchMode
  temporaryMinutesInput : Str
deriving DecidableEq, Repr

/-- The status surfaced by `setStatus` at the end of a save. -/
inductive SaveStatus where
  | errorStatus (e : VError)
  | savedStatus
deriving DecidableEq, Repr

/-- `syncExpiryAlarm`: clear the named alarm, then re-create it only for a
truthy `temporaryUntil` lying in the future (`temporaryUntil &&
temporaryUntil > Date.now()`; the value `0` is falsy). -/
def syncExpiryAlarmStep (now : Int) (temporaryUntil : Option Int) : Option Int :=
  match temporaryUntil with
  | none => none
  | some t => if t ≠ 0 && now < t then some t else none

/-- `saveConfig`: validate, and on failure surface the error having touched
nothing; on success persist the payload, reconcile the rule table, and
re-synchronize the expiry alarm.  (The guard for absent `chrome` APIs at
the head of the source function is outside the model.) -/
def saveConfig (ui : UiState) (now : Int) (st : SysState) : SysState × SaveStatus :=
  match validateConfig ui.headers ui.domainInput ui.domainMatchMode ui.temporaryMinutesInput with
  | .error e => (st, .errorStatus e)
  | .ok payload =>
    let temporaryUntil : Option Int :=
      if ui.enabled && 0 < payload.temporaryMinutes
      then some (now + payload.temporaryMinutes * 60000) else none
    let storage : StoredConfig :=
      ⟨payload.headers, ui.enabled, payload.domains, ui.domainMatchMode, temporaryUntil⟩
    let installedRules :=
      updateRulesStep st.installedRules payload.headers payload.domains
        ui.enabled ui.domainMatchMode
    let alarm := syncExpiryAlarmStep now temporaryUntil
    (⟨storage, installedRules, alarm⟩, .savedStatus)

/-- JSON values as produced by `JSON.parse`: numbers are rationals since
parsed JSON numbers are always finite. -/
inductive JValue where
  | jnull
  | jbool (b : Bool)
  | jnum (q : ℚ)
  | jstr (s : Str)
  | jarr (items : List JValue)
  | jobj (fields : List (String × JValue))

/-- Property access `data.k` on a parsed JSON value: a field of an object,
`none` (JavaScript `undefined`) otherwise. -/
def jGet (data : JValue) (k : String) : Option JValue :=
  match data with
  | .jobj fields => fields.lookup k
  | _ => none

/-- Decimal digit characters for `String(·)`. -/
def digitChar (n : Nat) : Char :=
  if n = 0 then '0' else if n = 1 then '1' else if n = 2 then '2'
  else if n = 3 then '3' else if n = 4 then '4' else if n = 5 then '5'
  else if n = 6 then '6' else if n = 7 then '7' else if n = 8 then '8'
  else if n = 9 then '9' else '*'

/-- Fuel-driven decimal printing of a natural number (any fuel above the
number itself is enough). -/
def natToStrAux : Nat → Nat → Str
  | 0, _ => []
  | fuel + 1, n =>
    if n < 10 then [digitChar n]
    else natToStrAux fuel (n / 10) ++ [digitChar (n % 10)]

/-- JavaScript `String(n)` for a natural number. -/
def natToStr (n : Nat) : Str := natToStrAux (n + 1) n

/-- JavaScript `String(i)` for an integer. -/
def intToStr (i : Int) : Str :=
  if i < 0 then '-' :: natToStr (-i).toNat else natToStr i.toNat

/-- JavaScript `Math.round`: round half toward positive infinity. -/
def jsRound (q : ℚ) : Int := ⌊q + 1 / 2⌋

/-- The export payload of `exportConfig`, built from the validated data
(`JSON.stringify` of this object is the written file). -/
def exportDoc (enabled : Bool) (payload : ValidatedPayload) (mode : DomainMatchMode) : JValue :=
  .jobj
    [("version", .jnum 1),
     ("enabled", .jbool enabled),
     ("headers", .jarr (payload.headers.map
        (fun h => .jobj [("key", .jstr h.key), ("value", .jstr h.value)]))),
     ("domains", .jarr (payload.domains.map .jstr)),
     ("domainMatchMode", .jstr (match mode with
        | .exact => str "exact"
        | .include_subdomains => str "include_subdomains"
        | .subdomains_only => str "subdomains_only")),
     ("temporaryMinutes", .jnum (payload.temporaryMinutes : ℚ))]

/-- `exportConfig`: validate the current signals and emit the document;
`none` models the early return that only shows the validation error. -/
def exportConfig (ui : UiState) : Option JValue :=
  match validateConfig ui.headers ui.domainInput ui.domainMatchMode ui.temporaryMinutesInput with
  | .error _ => none
  | .ok payload => some (exportDoc ui.enabled payload ui.domainMatchMode)

/-- The header-entry filter of `importConfig`: keep objects carrying string
`key` and `value` fields. -/
def importHeaderItem : JValue → Option HeaderConfig
  | .jobj fields =>
    match fields.lookup "key", fields.lookup "value" with
    | some (.jstr k), some (.jstr v) => some ⟨k, v⟩
    | _, _ => none
  | _ => none

/-- The `importedTemporaryMinutes` computation of `importConfig`: a finite
number is rounded and clamped into `[0, 1440]`; anything else falls back to
`0`.  (`JSON.parse` can only produce finite numbers, so the
`Number.isFinite` guard of the source is always satisfied on `jnum`.) -/
def importedTemporaryMinutes (v : Option JValue) : Int :=
  match v with
  | some (.jnum q) => max 0 (min 1440 (jsRound q))
  | _ => 0

/-- The UI signals as set at the end of `importConfig`. -/
structure ImportedState where
  headers : List HeaderConfig
  enabled : Bool
  domainInput : Str
  domainMatchMode : DomainMatchMode
  temporaryMinutesInput : Str
deriving DecidableEq, Repr

/-- The `importedHeaders` computation of `importConfig`: a header array is
filtered entry-wise, anything else falls back to `DEFAULT_HEADERS`. -/
def importedHeadersRaw (data : JValue) : List HeaderConfig :=
  match jGet data "headers" with
  | some (.jarr items) => items.filterMap importHeaderItem
  | _ => DEFAULT_HEADERS

/-- The `importedDomains` computation of `importConfig`: string entries of
a domain array, `[]` otherwise. -/
def importedDomainsOf (data : JValue) : List Str :=
  match jGet data "domains" with
  | some (.jarr items) =>
      items.filterMap (fun v => match v with | .jstr s => some s | _ => none)
  | _ => []

/-- The `importedMode` computation of `importConfig`: one of the three
recognized strings, defaulting to `include_subdomains`. -/
def importedModeOf (data : JValue) : DomainMatchMode :=
  match jGet data "domainMatchMode" with
  | some (.jstr s) =>
    if s = str "exact" then .exact
    else if s = str "include_subdomains" then .include_subdomains
    else if s = str "subdomains_only" then .subdomains_only
    else .include_subdomains
  | _ => .include_subdomains

/-- The `enabled` import: a boolean field, defaulting to `true`. -/
def importedEnabledOf (data : JValue) : Bool :=
  match jGet data "enabled" with
  | some (.jbool b) => b
  | _ => true

/-- `importConfig` on a successfully parsed JSON document: every field
degrades to its default instead of failing; the signals are set to the
imported values (`setHeaders`, `setEnabled`, `setDomainInput` with
`join("\n")`, `setDomainMatchMode`, `setTemporaryMinutesInput` with
`String(·)`). -/
def importConfig (data : JValue) : ImportedState :=
  ⟨if (importedHeadersRaw data).isEmpty then DEFAULT_HEADERS else importedHeadersRaw data,
   importedEnabledOf data,
   List.intercalate ['\n'] (importedDomainsOf data),
   importedModeOf data,
   intToStr (importedTemporaryMinutes (jGet data "temporaryMinutes"))⟩

namespace Background

/-- The external state seen by the background script: the persisted
`enabled`/`temporaryUntil` keys, the dynamic-rule table, and the
`header-modifier-expiry` alarm. -/
structure BgState where
  enabled : Bool
  temporaryUntil : Option Int
  rules : List Rule
  alarm : Option Int
deriving DecidableEq, Repr

/-- `clearExpiryAlarm` / `chrome.alarms.clear(ALARM_NAME)`: idempotent. -/
def clearExpiryAlarm (st : BgState) : BgState := { st with alarm := none }

/-- `clearAllDynamicRules`: read the table and remove every listed rule id,
adding nothing. -/
def clearAllDynamicRules (st : BgState) : BgState :=
  { st with rules := applyDeltaTable st.rules (st.rules.map Rule.id) [] }

/-- `disableExtensionByExpiry`: persist `enabled=false, temporaryUntil=null`,
clear every dynamic rule, then clear the alarm — the `Fired` transition. -/
def disableExtensionByExpiry (st : BgState) : BgState :=
  clearExpiryAlarm (clearAllDynamicRules { st with enabled := false, temporaryUntil := none })

/-- `scheduleExpiryAlarm`: clear for a missing or non-positive instant,
fire immediately for an instant not in the future, otherwise arm a one-shot
alarm at the instant. -/
def scheduleExpiryAlarm (now : Int) (temporaryUntil : Option Int) (st : BgState) : BgState :=
  match temporaryUntil with
  | none => clearExpiryAlarm st
  | some t =>
    if t ≤ 0 then clearExpiryAlarm st
    else if t ≤ now then disableExtensionByExpiry st
    else { st with alarm := some t }

/-- `syncAlarmFromStorage`, run on `onStartup` and after install: read the
persisted state, clear the alarm when disabled, otherwise re-derive the
schedule from the absolute persisted instant. -/
def syncAlarmFromStorage (now : Int) (st : BgState) : BgState :=
  if !st.enabled then clearExpiryAlarm st
  else scheduleExpiryAlarm now st.temporaryUntil st

end Background

instance exceptDecEq {e a : Type} [DecidableEq e] [DecidableEq a] : DecidableEq (Except e a) :=
  fun x y =>
    match x, y with
    | .error u, .error v =>
      if h : u = v then .isTrue (congrArg Except.error h)
      else .isFalse (fun hh => h (Except.error.inj hh))
    | .error _, .ok _ => .isFalse (fun hh => Except.noConfusion hh)
    | .ok _, .error _ => .isFalse (fun hh => Except.noConfusion hh)
    | .ok u, .ok v =>
      if h : u = v then .isTrue (congrArg Except.ok h)
      else .isFalse (fun hh => h (Except.ok.inj hh))

/-! ### The rule compiler: claim C1 (and supporting lemmas) -/

theorem desiredRulesFor_not_enabled (H : List HeaderConfig) (D : List Str)
    (m : DomainMatchMode) : desiredRulesFor H D false m = [] := by
  simp [desiredRulesFor]

theorem desiredRulesFor_no_headers (D : List Str) (e : Bool) (m : DomainMatchMode) :
    desiredRulesFor [] D e m = [] := by
  simp [desiredRulesFor]

theorem desiredRulesFor_global (H : List HeaderConfig) (m : DomainMatchMode) (hH : H ≠ []) :
    desiredRulesFor H [] true m = [buildRule 1 H globalAllUrlsCondition] := by
  simp [desiredRulesFor, hH]

theorem desiredRulesFor_perDomain (H : List HeaderConfig) (D : List Str) (m : DomainMatchMode)
    (hH : H ≠ []) (hD : D ≠ []) :
    desiredRulesFor H D true m =
      D.enum.map (fun p => buildRule (p.1 + 1) H (buildCondition p.2 m)) := by
  simp [desiredRulesFor, hH, hD]

theorem desiredRulesFor_map_id (H : List HeaderConfig) (D : List Str) (m : DomainMatchMode)
    (hH : H ≠ []) (hD : D ≠ []) :
    (desiredRulesFor H D true m).map Rule.id = List.range' 1 D.length := by
  rw [desiredRulesFor_perDomain H D m hH hD, List.map_map]
  have h1 : (Rule.id ∘ fun p : Nat × Str => buildRule (p.1 + 1) H (buildCondition p.2 m)) =
      ((fun n => n + 1) ∘ Prod.fst) := rfl
  rw [h1, ← List.map_map, List.enum_map_fst, List.range'_eq_map_range]
  exact List.map_congr_left fun a _ => Nat.add_comm a 1

theorem desiredRulesFor_getElem (H : List HeaderConfig) (D : List Str) (m : DomainMatchMode)
    (hH : H ≠ []) (hD : D ≠ []) (i : Nat) (d : Str) (hd : D[i]? = some d) :
    (desiredRulesFor H D true m)[i]? = some (buildRule (i + 1) H (buildCondition d m)) := by
  rw [desiredRulesFor_perDomain H D m hH hD, List.getElem?_map, List.getElem?_enum, hd]
  rfl

/-- C1: with `enabled=true` and a non-empty validated header list the
compiler emits exactly one rule per domain with ids `1..N` assigned
positionally; with an empty domain set exactly one rule with the global
condition and id 1; with `enabled=false` or an empty header list exactly
`0` rules. -/
theorem compile_rule_counts (H : List HeaderConfig) (D : List Str) (m : DomainMatchMode) :
    (H ≠ [] → D ≠ [] →
      (desiredRulesFor H D true m).length = D.length ∧
      (desiredRulesFor H D true m).map Rule.id = List.range' 1 D.length ∧
      ∀ i d, D[i]? = some d →
        (desiredRulesFor H D true m)[i]? = some (buildRule (i + 1) H (buildCondition d m))) ∧
    (H ≠ [] →
      desiredRulesFor H [] true m = [buildRule 1 H globalAllUrlsCondition] ∧
      (buildRule 1 H globalAllUrlsCondition).id = 1 ∧
      (buildRule 1 H globalAllUrlsCondition).condition = globalAllUrlsCondition) ∧
    desiredRulesFor H D false m = [] ∧
    desiredRulesFor [] D true m = [] := by
  refine ⟨fun hH hD => ⟨?_, desiredRulesFor_map_id H D m hH hD,
      fun i d hd => desiredRulesFor_getElem H D m hH hD i d hd⟩,
    fun hH => ⟨desiredRulesFor_global H m hH, rfl, rfl⟩,
    desiredRulesFor_not_enabled H D m, desiredRulesFor_no_headers D true m⟩
  rw [desiredRulesFor_perDomain H D m hH hD, List.length_map, List.enum_length]

/-- Witness for C1 at a concrete two-domain configuration. -/
theorem compile_rule_counts_witness :
    ([⟨str "X-Test", str "123"⟩] : List HeaderConfig) ≠ [] ∧
    ([str "a.com", str "b.com"] : List Str) ≠ [] ∧
    (desiredRulesFor [⟨str "X-Test", str "123"⟩] [str "a.com", str "b.com"] true
        DomainMatchMode.include_subdomains).map Rule.id = List.range' 1 2 :=
  ⟨by decide, by decide,
    ((compile_rule_counts [⟨str "X-Test", str "123"⟩] [str "a.com", str "b.com"]
        DomainMatchMode.include_subdomains).1 (by decide) (by decide)).2.1⟩

/-! ### The expiry scheduler: claim C5 -/

theorem applyDeltaTable_remove_all (table : List Rule) :
    applyDeltaTable table (table.map Rule.id) [] = [] := by
  rw [applyDeltaTable, List.append_nil, List.filter_eq_nil_iff]
  intro r hr
  simp [List.mem_map]
  exact ⟨r, hr, rfl⟩

/-- C5: at process start, a persisted armed expiry instant lying in the
past triggers the `Fired` transition immediately: the persisted
configuration becomes disabled with the expiry instant cleared, the rule
table is emptied, and no alarm stays armed. -/
theorem startup_past_expiry_fires (st : Background.BgState) (t now : Int)
    (henabled : st.enabled = true) (huntil : st.temporaryUntil = some t)
    (hpos : 0 < t) (hpast : t ≤ now) :
    Background.syncAlarmFromStorage now st =
      { enabled := false, temporaryUntil := none, rules := [], alarm := none } := by
  unfold Background.syncAlarmFromStorage
  rw [henabled]
  show Background.scheduleExpiryAlarm now st.temporaryUntil st = _
  rw [huntil]
  show (if t ≤ 0 then Background.clearExpiryAlarm st
      else if t ≤ now then Background.disableExtensionByExpiry st
      else { st with alarm := some t }) = _
  rw [if_neg (by omega), if_pos hpast]
  unfold Background.disableExtensionByExpiry Background.clearExpiryAlarm
    Background.clearAllDynamicRules
  simp [applyDeltaTable_remove_all]

/-- Witness for C5: a state armed five time units in the past fires at startup. -/
theorem startup_past_expiry_fires_witness :
    Background.syncAlarmFromStorage 10
        ⟨true, some 5, [buildRule 1 [⟨str "a", str "b"⟩] globalAllUrlsCondition], some 5⟩ =
      ⟨false, none, [], none⟩ :=
  startup_past_expiry_fires _ 5 10 rfl rfl (by decide) (by decide)

/-! ### The save pipeline: claim C7 -/

/-- C7: when validation fails, the save touches neither the persisted
configuration nor the installed rule table nor the alarm, and the
validation error itself is the surfaced status. -/
theorem save_invalid_touches_nothing (ui : UiState) (now : Int) (st : SysState) (e : VError)
    (h : validateConfig ui.headers ui.domainInput ui.domainMatchMode ui.temporaryMinutesInput =
      .error e) :
    saveConfig ui now st = (st, .errorStatus e) := by
  unfold saveConfig
  rw [h]

/-- Witness for C7: a header key with a space fails validation and the
state survives a save attempt unchanged. -/
theorem save_invalid_touches_nothing_witness :
    saveConfig ⟨[⟨str "bad key", str "v"⟩], true, [], .exact, str "0"⟩ 0
        ⟨⟨[], true, [], .exact, none⟩, [], none⟩ =
      (⟨⟨[], true, [], .exact, none⟩, [], none⟩,
        .errorStatus (.invalidHeaderName (str "bad key"))) :=
  save_invalid_touches_nothing ⟨[⟨str "bad key", str "v"⟩], true, [], .exact, str "0"⟩ 0
    ⟨⟨[], true, [], .exact, none⟩, [], none⟩ (.invalidHeaderName (str "bad key")) (by decide)

/-! ### The reconciler: claims C2 and C3 (and the `Map` lookup lemmas) -/

theorem mapLookup_eq_none_iff (X : List Rule) (i : Nat) :
    mapLookup X i = none ↔ ∀ r ∈ X, r.id ≠ i := by
  induction X with
  | nil => simp [mapLookup]
  | cons a rest ih =>
    rw [mapLookup]
    cases h : mapLookup rest i with
    | some found =>
      simp only [reduceCtorEq, false_iff, not_forall]
      have := ih.not.mp (by simp [h])
      push_neg at this
      obtain ⟨r, hr, hid⟩ := this
      exact ⟨r, by simp [hr], by simp [hid]⟩
    | none =>
      constructor
      · intro hif r hr
        rcases List.mem_cons.mp hr with rfl | hmem
        · intro hid
          rw [if_pos hid] at hif
          exact Option.noConfusion hif
        · exact (ih.mp h) r hmem
      · intro hall
        rw [if_neg (hall a (List.mem_cons_self a rest))]

theorem mapLookup_mem (X : List Rule) (i : Nat) (r : Rule) (h : mapLookup X i = some r) :
    r ∈ X ∧ r.id = i := by
  induction X with
  | nil => exact Option.noConfusion h
  | cons a rest ih =>
    rw [mapLookup] at h
    cases hrest : mapLookup rest i with
    | some found =>
      rw [hrest] at h
      obtain rfl : found = r := Option.some.inj h
      obtain ⟨hmem, hid⟩ := ih hrest
      exact ⟨List.mem_cons_of_mem a hmem, hid⟩
    | none =>
      rw [hrest] at h
      by_cases hid : a.id = i
      · rw [if_pos hid] at h
        obtain rfl : a = r := Option.some.inj h
        exact ⟨List.mem_cons_self a rest, hid⟩
      · rw [if_neg hid] at h
        exact Option.noConfusion h

theorem mapLookup_self (X : List Rule) (hn : (X.map Rule.id).Nodup) (r : Rule) (hr : r ∈ X) :
    mapLookup X r.id = some r := by
  induction X with
  | nil => exact absurd hr (List.not_mem_nil r)
  | cons a rest ih =>
    rw [List.map_cons, List.nodup_cons] at hn
    rcases List.mem_cons.mp hr with rfl | hmem
    · rw [mapLookup]
      have hnone : mapLookup rest r.id = none := by
        rw [mapLookup_eq_none_iff]
        intro x hx hxid
        exact hn.1 (hxid ▸ List.mem_map_of_mem Rule.id hx)
      rw [hnone, if_pos rfl]
    · rw [mapLookup, ih hn.2 hmem]

/-- C2: reconciling a rule set against itself yields an empty delta, and in
that case `updateRules` makes no call to the rule-table service. -/
theorem reconcile_self_no_call (X : List Rule) (hn : (X.map Rule.id).Nodup) :
    computeDelta X X = ⟨[], []⟩ ∧
    ∀ H D e m, desiredRulesFor H D e m = X →
      updateRules X H D e m = none := by
  have hfilter : ∀ r ∈ X, (match mapLookup X r.id with
      | none => true
      | some d => serializeRule d != serializeRule r) = false := by
    intro r hr
    rw [mapLookup_self X hn r hr]
    simp
  have hdelta : computeDelta X X = ⟨[], []⟩ := by
    unfold computeDelta
    rw [List.filter_eq_nil_iff.mpr (by simpa using hfilter)]
    rfl
  refine ⟨hdelta, fun H D e m hdes => ?_⟩
  simp only [updateRules, hdes, hdelta]
  rfl

/-- Witness for C2 at a concrete one-rule set. -/
theorem reconcile_self_no_call_witness :
    computeDelta [buildRule 1 [⟨str "k", str "v"⟩] globalAllUrlsCondition]
        [buildRule 1 [⟨str "k", str "v"⟩] globalAllUrlsCondition] = ⟨[], []⟩ ∧
    updateRules [buildRule 1 [⟨str "k", str "v"⟩] globalAllUrlsCondition]
        [⟨str "k", str "v"⟩] [] true .exact = none := by
  have h := reconcile_self_no_call [buildRule 1 [⟨str "k", str "v"⟩] globalAllUrlsCondition]
    (by decide)
  exact ⟨h.1, h.2 [⟨str "k", str "v"⟩] [] true .exact (by decide)⟩

/-- C3: the delta is characterized by pairing the two rule sequences on
ids: an installed rule's id is removed exactly when its id is absent from
the desired set or the desired rule with that id serializes differently; a
desired rule is added exactly when its id is absent from the installed set
or the installed rule with that id serializes differently; the rule id
itself never takes part in the serialization comparison. -/
theorem reconcile_delta_characterization (desired installed : List Rule)
    (hd : (desired.map Rule.id).Nodup) (hi : (installed.map Rule.id).Nodup) :
    (∀ i : Nat, i ∈ (computeDelta installed desired).removeRuleIds ↔
      ∃ r ∈ installed, r.id = i ∧
        ((∀ d ∈ desired, d.id ≠ i) ∨
          ∃ d ∈ desired, d.id = i ∧ serializeRule d ≠ serializeRule r)) ∧
    (∀ r : Rule, r ∈ (computeDelta installed desired).addRules ↔
      r ∈ desired ∧
        ((∀ c ∈ installed, c.id ≠ r.id) ∨
          ∃ c ∈ installed, c.id = r.id ∧ serializeRule c ≠ serializeRule r)) ∧
    (∀ (r : Rule) (j : Nat), serializeRule { r with id := j } = serializeRule r) := by
  have hpred : ∀ (Y : List Rule), (Y.map Rule.id).Nodup → ∀ (r : Rule),
      ((match mapLookup Y r.id with
        | none => true
        | some d => serializeRule d != serializeRule r) = true ↔
      ((∀ d ∈ Y, d.id ≠ r.id) ∨
        ∃ d ∈ Y, d.id = r.id ∧ serializeRule d ≠ serializeRule r)) := by
    intro Y hY r
    cases hl : mapLookup Y r.id with
    | none =>
      simp only [true_iff]
      exact Or.inl ((mapLookup_eq_none_iff Y r.id).mp hl)
    | some d =>
      obtain ⟨hdmem, hdid⟩ := mapLookup_mem Y r.id d hl
      constructor
      · intro hne
        exact Or.inr ⟨d, hdmem, hdid, by simpa using hne⟩
      · intro hcases
        rcases hcases with habs | ⟨d2, hd2mem, hd2id, hd2ne⟩
        · exact absurd hdid (habs d hdmem)
        · have : d2 = d := by
            have hinj := List.inj_on_of_nodup_map hY
            exact hinj hd2mem hdmem (by rw [hd2id, hdid])
          subst this
          simpa using hd2ne
  refine ⟨fun i => ?_, fun r => ?_, fun r j => rfl⟩
  · unfold computeDelta
    simp only [List.mem_map, List.mem_filter]
    constructor
    · rintro ⟨r, ⟨hrmem, hrpred⟩, rfl⟩
      exact ⟨r, hrmem, rfl, ((hpred desired hd r).mp hrpred)⟩
    · rintro ⟨r, hrmem, rfl, hcases⟩
      exact ⟨r, ⟨hrmem, (hpred desired hd r).mpr hcases⟩, rfl⟩
  · unfold computeDelta
    simp only [List.mem_filter]
    constructor
    · rintro ⟨hrmem, hrpred⟩
      exact ⟨hrmem, (hpred installed hi r).mp hrpred⟩
    · rintro ⟨hrmem, hcases⟩
      exact ⟨hrmem, (hpred installed hi r).mpr hcases⟩

/-- Witness for C3: an installed rule whose priority changed is scheduled
for removal. -/
theorem reconcile_delta_characterization_witness :
    1 ∈ (computeDelta [buildRule 1 [⟨str "k", str "v"⟩] globalAllUrlsCondition]
        [{ buildRule 1 [⟨str "k", str "v"⟩] globalAllUrlsCondition with priority := 2 }]).removeRuleIds :=
  ((reconcile_delta_characterization
      [{ buildRule 1 [⟨str "k", str "v"⟩] globalAllUrlsCondition with priority := 2 }]
      [buildRule 1 [⟨str "k", str "v"⟩] globalAllUrlsCondition]
      (by decide) (by decide)).1 1).mpr
    ⟨buildRule 1 [⟨str "k", str "v"⟩] globalAllUrlsCondition, by decide, rfl,
      Or.inr ⟨{ buildRule 1 [⟨str "k", str "v"⟩] globalAllUrlsCondition with priority := 2 },
        by decide, rfl, by decide⟩⟩

/-! ### Domain ordering: claim C4 (corrected) -/

theorem dedupGo_subset {α : Type} [DecidableEq α] (seen : List α) (l : List α) :
    ∀ a ∈ dedupGo seen l, a ∈ l := by
  induction l generalizing seen with
  | nil => simp [dedupGo]
  | cons b rest ih =>
    intro a ha
    rw [dedupGo] at ha
    by_cases hb : b ∈ seen
    · rw [if_pos hb] at ha
      exact List.mem_cons_of_mem b (ih seen a ha)
    · rw [if_neg hb] at ha
      rcases List.mem_cons.mp ha with rfl | ha2
      · exact List.mem_cons_self a rest
      · exact List.mem_cons_of_mem b (ih (b :: seen) a ha2)

theorem dedupGo_not_seen {α : Type} [DecidableEq α] (seen : List α) (l : List α) :
    ∀ a ∈ dedupGo seen l, a ∉ seen := by
  induction l generalizing seen with
  | nil => simp [dedupGo]
  | cons b rest ih =>
    intro a ha
    rw [dedupGo] at ha
    by_cases hb : b ∈ seen
    · rw [if_pos hb] at ha
      exact ih seen a ha
    · rw [if_neg hb] at ha
      rcases List.mem_cons.mp ha with rfl | ha2
      · exact hb
      · intro hseen
        exact ih (b :: seen) a ha2 (List.mem_cons_of_mem b hseen)

theorem dedupGo_nodup {α : Type} [DecidableEq α] (seen : List α) (l : List α) :
    (dedupGo seen l).Nodup := by
  induction l generalizing seen with
  | nil => simp [dedupGo]
  | cons b rest ih =>
    rw [dedupGo]
    by_cases hb : b ∈ seen
    · rw [if_pos hb]
      exact ih seen
    · rw [if_neg hb]
      refine List.nodup_cons.mpr ⟨fun hmem => ?_, ih (b :: seen)⟩
      exact dedupGo_not_seen (b :: seen) rest b hmem (List.mem_cons_self b seen)

theorem dedupGo_eq_self {α : Type} [DecidableEq α] (seen : List α) (l : List α)
    (hdisj : ∀ a ∈ l, a ∉ seen) (hnodup : l.Nodup) : dedupGo seen l = l := by
  induction l generalizing seen with
  | nil => rfl
  | cons b rest ih =>
    rw [dedupGo, if_neg (hdisj b (List.mem_cons_self b rest))]
    rw [List.nodup_cons] at hnodup
    refine congrArg (b :: ·) (ih (b :: seen) (fun a ha => ?_) hnodup.2)
    intro hseen
    rcases List.mem_cons.mp hseen with rfl | h2
    · exact hnodup.1 ha
    · exact hdisj a (List.mem_cons_of_mem b ha) h2

theorem parseDomains_nodup (raw : Str) : (parseDomains raw).Nodup :=
  dedupGo_nodup [] _

/-- C4 counterexample: the parser and compiler preserve the textual
first-occurrence order instead of sorting.  The two raw texts below denote
the same two-element domain set, yet they compile to different rule
sequences (the ids `1` and `2` land on different domains), refuting the
claimed sorted, order-independent compilation. -/
theorem compile_not_sorted_counterexample :
    parseDomains (str "a.com\nb.com") = [str "a.com", str "b.com"] ∧
    parseDomains (str "b.com,a.com") = [str "b.com", str "a.com"] ∧
    (parseDomains (str "a.com\nb.com")).Perm (parseDomains (str "b.com,a.com")) ∧
    desiredRulesFor [⟨str "X-Test", str "123"⟩] (parseDomains (str "a.com\nb.com")) true
        DomainMatchMode.include_subdomains ≠
      desiredRulesFor [⟨str "X-Test", str "123"⟩] (parseDomains (str "b.com,a.com")) true
        DomainMatchMode.include_subdomains := by
  refine ⟨by decide, by decide, ?_, by decide⟩
  rw [show parseDomains (str "a.com\nb.com") = [str "a.com", str "b.com"] from by decide,
    show parseDomains (str "b.com,a.com") = [str "b.com", str "a.com"] from by decide]
  exact List.Perm.swap (str "b.com") (str "a.com") []

/-- C4 (amended): the compiler emits one rule per parsed domain in the
first-occurrence order of the (split, trimmed, lowercased, de-duplicated)
domain text — not in sorted order — with ids `1..N` assigned by that
order; the parsed domain list is duplicate-free, and identical raw text
always compiles to the identical rule sequence. -/
theorem compile_follows_first_occurrence_order (raw : Str) (H : List HeaderConfig)
    (m : DomainMatchMode) (hH : H ≠ []) (hD : parseDomains raw ≠ []) :
    (parseDomains raw).Nodup ∧
    (desiredRulesFor H (parseDomains raw) true m).map Rule.id =
      List.range' 1 (parseDomains raw).length ∧
    ∀ i d, (parseDomains raw)[i]? = some d →
      (desiredRulesFor H (parseDomains raw) true m)[i]? =
        some (buildRule (i + 1) H (buildCondition d m)) :=
  ⟨parseDomains_nodup raw, desiredRulesFor_map_id H (parseDomains raw) m hH hD,
    fun i d hd => desiredRulesFor_getElem H (parseDomains raw) m hH hD i d hd⟩

/-- Witness for the amended C4 at a concrete comma-separated text. -/
theorem compile_follows_first_occurrence_order_witness :
    (desiredRulesFor [⟨str "X-Test", str "123"⟩] (parseDomains (str "b.com,a.com")) true
        DomainMatchMode.include_subdomains).map Rule.id =
      List.range' 1 (parseDomains (str "b.com,a.com")).length :=
  (compile_follows_first_occurrence_order (str "b.com,a.com") [⟨str "X-Test", str "123"⟩]
    DomainMatchMode.include_subdomains (by decide) (by decide)).2.1

/-! ### Expiry-minutes parsing: claim C9 (corrected) -/

/-- C9 counterexample: `"5.9"` does not denote an integer, yet
`parseTemporaryMinutes` accepts it — `Number.parseInt` stops at the first
non-digit, so the value parses to `5` instead of being rejected. -/
theorem parse_expiry_counterexample :
    parseTemporaryMinutes (str "5.9") = some 5 ∧ parseTemporaryMinutes (str "5.9") ≠ none := by
  decide

/-- C9 (amended): a blank (after trimming) expiry field parses to `0`; a
non-blank field is accepted exactly when the leading-integer prefix parse
of JavaScript `parseInt` yields an integer in `[0, 1440]` (trailing
non-digit characters are ignored rather than rejected); and, when the
header and domain checks pass, `validateConfig` fails with the
invalid-expiry error exactly on the rejected inputs. -/
theorem parse_expiry_characterization (tmin : Str) :
    (jsTrim tmin = [] → parseTemporaryMinutes tmin = some 0) ∧
    (∀ k, parseTemporaryMinutes tmin = some k →
      (0 ≤ k ∧ k ≤ 1440) ∧ ((jsTrim tmin = [] ∧ k = 0) ∨ parseIntJS (jsTrim tmin) = some k)) ∧
    (parseTemporaryMinutes tmin = none ↔
      jsTrim tmin ≠ [] ∧ ∀ k, parseIntJS (jsTrim tmin) = some k → (k < 0 ∨ 1440 < k)) ∧
    (∀ rawHeaders rawDomainInput mode,
      checkHeaders (normalizeHeaders rawHeaders) [] = .ok () →
      checkDomains mode (parseDomains rawDomainInput) = .ok () →
      (validateConfig rawHeaders rawDomainInput mode tmin = .error .invalidExpiryMinutes ↔
        parseTemporaryMinutes tmin = none)) := by
  refine ⟨fun hblank => ?_, fun k hk => ?_, ?_, fun rawHeaders rawDomainInput mode hH hD => ?_⟩
  · simp [parseTemporaryMinutes, hblank]
  · by_cases hblank : (jsTrim tmin).isEmpty
    · simp only [parseTemporaryMinutes, if_pos hblank] at hk
      obtain rfl : (0 : Int) = k := Option.some.inj hk
      exact ⟨by omega, Or.inl ⟨List.isEmpty_iff.mp hblank, rfl⟩⟩
    · cases hp : parseIntJS (jsTrim tmin) with
      | none => simp [parseTemporaryMinutes, hblank, hp] at hk
      | some p =>
        simp only [parseTemporaryMinutes, if_neg hblank, hp] at hk
        by_cases hrange : p < 0 ∨ 1440 < p
        · rw [if_pos hrange] at hk
          exact Option.noConfusion hk
        · rw [if_neg hrange] at hk
          obtain rfl : p = k := Option.some.inj hk
          exact ⟨by omega, Or.inr rfl⟩
  · by_cases hblank : (jsTrim tmin).isEmpty
    · simp only [parseTemporaryMinutes, if_pos hblank]
      simp [List.isEmpty_iff.mp hblank]
    · have hne : jsTrim tmin ≠ [] := fun h => hblank (by simp [h])
      cases hp : parseIntJS (jsTrim tmin) with
      | none => simp [parseTemporaryMinutes, hblank, hp, hne]
      | some p =>
        simp only [parseTemporaryMinutes, if_neg hblank, hp]
        by_cases hrange : p < 0 ∨ 1440 < p
        · rw [if_pos hrange]
          simp only [true_iff, ne_eq, hne, not_false_eq_true, true_and]
          intro k hk
          obtain rfl : p = k := Option.some.inj hk
          exact hrange
        · rw [if_neg hrange]
          simp only [reduceCtorEq, false_iff, not_and, not_forall]
          intro _
          exact ⟨p, rfl, by omega⟩
  · rw [validateConfig]
    simp only [hH, hD]
    cases hp : parseTemporaryMinutes tmin with
    | none => simp
    | some p => simp

/-- Witness for the amended C9: a trailing-garbage numeral is accepted with
the garbage ignored, and its value is certified in range. -/
theorem parse_expiry_characterization_witness :
    (0 ≤ (5 : Int) ∧ (5 : Int) ≤ 1440) ∧
      ((jsTrim (str "5.9") = [] ∧ (5 : Int) = 0) ∨
        parseIntJS (jsTrim (str "5.9")) = some 5) :=
  (parse_expiry_characterization (str "5.9")).2.1 5 (by decide)

/-! ### Import clamping: claim C10 -/

/-- C10: an imported `temporaryMinutes` that is a (finite) number is never
rejected: it is rounded to the nearest integer (half up, as `Math.round`)
and clamped into `[0, 1440]`; negative values clamp to `0`, values above
`1440` clamp to `1440`, in-range values round with error at most one half;
a missing or non-numeric field falls back to `0`. -/
theorem import_minutes_clamps (q : ℚ) :
    (q < 0 → importedTemporaryMinutes (some (.jnum q)) = 0) ∧
    (1440 < q → importedTemporaryMinutes (some (.jnum q)) = 1440) ∧
    (0 ≤ q → q ≤ 1440 →
      importedTemporaryMinutes (some (.jnum q)) = jsRound q ∧
      |q - (jsRound q : ℚ)| ≤ 1 / 2) ∧
    (0 ≤ importedTemporaryMinutes (some (.jnum q)) ∧
      importedTemporaryMinutes (some (.jnum q)) ≤ 1440) ∧
    importedTemporaryMinutes none = 0 ∧
    (∀ s : Str, importedTemporaryMinutes (some (.jstr s)) = 0) ∧
    (∀ b : Bool, importedTemporaryMinutes (some (.jbool b)) = 0) := by
  have hround : ∀ r : ℚ, (jsRound r : ℚ) ≤ r + 1 / 2 ∧ r + 1 / 2 - 1 < (jsRound r : ℚ) := by
    intro r
    simp only [jsRound]
    refine ⟨Int.floor_le (r + 1 / 2), ?_⟩
    have := Int.lt_floor_add_one (r + 1 / 2)
    linarith
  refine ⟨fun hneg => ?_, fun hbig => ?_, fun h0 h1440 => ?_, ?_, rfl, fun s => rfl, fun b => rfl⟩
  · have hle : jsRound q ≤ 0 := by
      have h1 : jsRound q ≤ ⌊(1 / 2 : ℚ)⌋ := by
        simp only [jsRound]
        exact Int.floor_le_floor (by linarith)
      have h2 : ⌊(1 / 2 : ℚ)⌋ = 0 := by norm_num
      omega
    simp only [importedTemporaryMinutes]
    omega
  · have hge : (1440 : Int) ≤ jsRound q := by
      simp only [jsRound]
      apply Int.le_floor.mpr
      push_cast
      linarith
    simp only [importedTemporaryMinutes]
    omega
  · have hlow : (0 : Int) ≤ jsRound q := by
      simp only [jsRound]
      apply Int.le_floor.mpr
      push_cast
      linarith
    have hhigh : jsRound q ≤ 1440 := by
      have h1 := (hround q).1
      by_contra hgt
      push_neg at hgt
      have h3 : (1441 : ℚ) ≤ (jsRound q : ℚ) := by exact_mod_cast hgt
      linarith
    refine ⟨by simp only [importedTemporaryMinutes]; omega, ?_⟩
    have h1 := (hround q).1
    have h2 := (hround q).2
    rw [abs_le]
    constructor <;> linarith
  · simp only [importedTemporaryMinutes]
    omega

/-- Witness for C10 at the out-of-range value `2000`. -/
theorem import_minutes_clamps_witness :
    importedTemporaryMinutes (some (.jnum 2000)) = 1440 :=
  (import_minutes_clamps 2000).2.1 (by norm_num)

/-! ### Duplicate header keys: claim C8 (corrected) -/

/-- The per-entry checks of the header loop (both fields present, key in
the token grammar, value free of CR/LF), bundled for reuse. -/
def headerEntryOK (header : HeaderConfig) : Bool :=
  !(header.key.isEmpty || header.value.isEmpty) &&
  HEADER_NAME_RE header.key && !hasCRLF header.value

theorem checkHeaders_append (pre rest : List HeaderConfig) (keySet : List Str)
    (hok : ∀ g ∈ pre, headerEntryOK g = true)
    (hseen : ∀ g ∈ pre, jsToLower g.key ∉ keySet)
    (hnodup : (pre.map fun g => jsToLower g.key).Nodup) :
    checkHeaders (pre ++ rest) keySet =
      checkHeaders rest ((pre.map fun g => jsToLower g.key).reverse ++ keySet) := by
  induction pre generalizing keySet with
  | nil => simp
  | cons g pre' ih =>
    have hg := hok g (List.mem_cons_self g pre')
    simp only [headerEntryOK, Bool.and_eq_true, Bool.not_eq_true'] at hg
    obtain ⟨⟨hfields, hname⟩, hcrlf⟩ := hg
    rw [List.map_cons, List.nodup_cons] at hnodup
    rw [List.cons_append, checkHeaders]
    rw [if_neg (by simp [hfields]), if_neg (by simp [hname]), if_neg (by simp [hcrlf]),
      if_neg (hseen g (List.mem_cons_self g pre'))]
    rw [ih (jsToLower g.key :: keySet) (fun x hx => hok x (List.mem_cons_of_mem g hx))
      ?seen hnodup.2]
    · simp [List.append_assoc]
    case seen =>
      intro x hx
      simp only [List.mem_cons, not_or]
      refine ⟨fun hlow => hnodup.1 (hlow ▸ List.mem_map_of_mem _ hx), ?_⟩
      exact hseen x (List.mem_cons_of_mem g hx)

/-- C8 counterexample: with surviving entries `Auth: 1` then `auth: 2`,
validation does fail on the duplicate case-folded key, but the reported
key is `auth` — the spelling of the second (later) occurrence — not the
first occurrence `Auth` as claimed; moreover a bad key earlier in the list
pre-empts the duplicate error entirely. -/
theorem duplicate_key_counterexample :
    validateConfig [⟨str "Auth", str "1"⟩, ⟨str "auth", str "2"⟩] []
        DomainMatchMode.include_subdomains (str "0") =
      .error (.duplicateHeaderKey (str "auth")) ∧
    validateConfig [⟨str "Auth", str "1"⟩, ⟨str "auth", str "2"⟩] []
        DomainMatchMode.include_subdomains (str "0") ≠
      .error (.duplicateHeaderKey (str "Auth")) ∧
    validateConfig [⟨str "bad key", str "x"⟩, ⟨str "a", str "1"⟩, ⟨str "A", str "2"⟩] []
        DomainMatchMode.include_subdomains (str "0") =
      .error (.invalidHeaderName (str "bad key")) := by
  refine ⟨by decide, by decide, by decide⟩

/-- C8 (amended): when the surviving header list splits as
`pre ++ h :: post` where every entry of `pre` and `h` itself passes the
per-entry checks, the case-folded keys of `pre` are pairwise distinct, and
the case-folded key of `h` already occurs among those of `pre` (so `h` is
the first duplicating entry), validation fails with `DuplicateHeaderKey`
reporting the key of `h` — the later occurrence — regardless of the
entries after `h`. -/
theorem duplicate_key_reports_later_occurrence (rawHeaders : List HeaderConfig)
    (rawDomainInput : Str) (mode : DomainMatchMode) (tmin : Str)
    (pre : List HeaderConfig) (h : HeaderConfig) (post : List HeaderConfig)
    (hsplit : normalizeHeaders rawHeaders = pre ++ h :: post)
    (hok : ∀ g ∈ pre, headerEntryOK g = true) (hhok : headerEntryOK h = true)
    (hnodup : (pre.map fun g => jsToLower g.key).Nodup)
    (hdup : jsToLower h.key ∈ pre.map fun g => jsToLower g.key) :
    validateConfig rawHeaders rawDomainInput mode tmin =
      .error (.duplicateHeaderKey h.key) := by
  rw [validateConfig]
  have hchk : checkHeaders (normalizeHeaders rawHeaders) [] =
      .error (.duplicateHeaderKey h.key) := by
    rw [hsplit, checkHeaders_append pre (h :: post) [] hok (by simp) hnodup]
    simp only [headerEntryOK, Bool.and_eq_true, Bool.not_eq_true'] at hhok
    obtain ⟨⟨hfields, hname⟩, hcrlf⟩ := hhok
    rw [checkHeaders]
    rw [if_neg (by simp [hfields]), if_neg (by simp [hname]), if_neg (by simp [hcrlf]),
      if_pos (by simpa using List.mem_reverse.mpr hdup)]
  rw [hchk]

/-- Witness for the amended C8 at the `Auth`/`auth` pair. -/
theorem duplicate_key_reports_later_occurrence_witness :
    validateConfig [⟨str "Auth", str "1"⟩, ⟨str "auth", str "2"⟩] []
        DomainMatchMode.include_subdomains (str "0") =
      .error (.duplicateHeaderKey (str "auth")) :=
  duplicate_key_reports_later_occurrence
    [⟨str "Auth", str "1"⟩, ⟨str "auth", str "2"⟩] [] DomainMatchMode.include_subdomains
    (str "0") [⟨str "Auth", str "1"⟩] ⟨str "auth", str "2"⟩ []
    (by decide) (by decide) (by decide) (by decide) (by decide)

/-! ### Export/import round trip: claim C6 (string-level lemmas) -/

theorem splitOnPred_ne_nil (p : Char → Bool) (s : Str) : splitOnPred p s ≠ [] := by
  cases s with
  | nil => simp [splitOnPred]
  | cons c rest =>
    rw [splitOnPred]
    by_cases hc : p c
    · simp [hc]
    · simp only [hc, if_false]
      cases h : splitOnPred p rest <;> simp

theorem splitOnPred_sepFree_append (p : Char → Bool) (d s : Str) (head : Str)
    (tail : List Str) (hd : ∀ c ∈ d, p c = false)
    (hs : splitOnPred p s = head :: tail) :
    splitOnPred p (d ++ s) = (d ++ head) :: tail := by
  induction d with
  | nil => simpa using hs
  | cons c d' ih =>
    rw [List.cons_append, splitOnPred, if_neg (by simp [hd c (List.mem_cons_self c d')]),
      ih (fun x hx => hd x (List.mem_cons_of_mem c hx))]
    rfl

theorem splitOnPred_sepFree (p : Char → Bool) (d : Str) (hd : ∀ c ∈ d, p c = false) :
    splitOnPred p d = [d] := by
  have := splitOnPred_sepFree_append p d [] [] [] hd rfl
  simpa using this

theorem splitOnPred_intercalate (p : Char → Bool) (sep : Char) (hsep : p sep = true)
    (D : List Str) (hD : D ≠ []) (hfree : ∀ d ∈ D, ∀ c ∈ d, p c = false) :
    splitOnPred p (List.intercalate [sep] D) = D := by
  induction D with
  | nil => exact absurd rfl hD
  | cons d rest ih =>
    cases rest with
    | nil =>
      rw [show List.intercalate [sep] [d] = d by simp [List.intercalate]]
      exact splitOnPred_sepFree p d (hfree d (List.mem_cons_self d []))
    | cons d2 rest2 =>
      have hstep : List.intercalate [sep] (d :: d2 :: rest2) =
          d ++ (sep :: List.intercalate [sep] (d2 :: rest2)) := by
        simp [List.intercalate, List.intersperse]
      rw [hstep]
      have htail : splitOnPred p (sep :: List.intercalate [sep] (d2 :: rest2)) =
          [] :: splitOnPred p (List.intercalate [sep] (d2 :: rest2)) := by
        rw [splitOnPred, if_pos hsep]
      have hrest := ih (by simp) (fun x hx => hfree x (List.mem_cons_of_mem d hx))
      rw [splitOnPred_sepFree_append p d _ [] (splitOnPred p (List.intercalate [sep] (d2 :: rest2)))
          (hfree d (List.mem_cons_self d _)) htail, hrest, List.append_nil]

theorem dropWhile_all_neg (p : Char → Bool) (s : Str) (h : ∀ c ∈ s, p c = false) :
    s.dropWhile p = s := by
  cases s with
  | nil => rfl
  | cons c rest => rw [List.dropWhile_cons, if_neg (by simp [h c (List.mem_cons_self c rest)])]

theorem jsTrim_eq_self (s : Str) (h : ∀ c ∈ s, c.isWhitespace = false) : jsTrim s = s := by
  rw [jsTrim, dropWhile_all_neg Char.isWhitespace s h,
    dropWhile_all_neg Char.isWhitespace s.reverse (fun c hc => h c (List.mem_reverse.mp hc)),
    List.reverse_reverse]

theorem digitChar_spec (n : Nat) (h : n < 10) :
    (digitChar n).isDigit = true ∧ (digitChar n).toNat - 48 = n := by
  interval_cases n <;> exact ⟨by decide, by decide⟩

theorem digitsVal_append_single (xs : Str) (c : Char) :
    digitsVal (xs ++ [c]) = digitsVal xs * 10 + (c.toNat - 48) := by
  rw [digitsVal, digitsVal, List.foldl_append]
  rfl

theorem natToStrAux_spec (fuel : Nat) : ∀ n, n < fuel →
    natToStrAux fuel n ≠ [] ∧ (∀ c ∈ natToStrAux fuel n, c.isDigit = true) ∧
    digitsVal (natToStrAux fuel n) = n := by
  induction fuel with
  | zero => intro n hn; omega
  | succ f ih =>
    intro n hn
    rw [natToStrAux]
    by_cases h10 : n < 10
    · rw [if_pos h10]
      obtain ⟨hdig, hval⟩ := digitChar_spec n h10
      refine ⟨by simp, by simpa using hdig, ?_⟩
      show digitsVal ([] ++ [digitChar n]) = n
      rw [digitsVal_append_single]
      simp [digitsVal, hval]
    · rw [if_neg h10]
      have hdivlt : n / 10 < f := by
        have h1 : n / 10 < n := Nat.div_lt_self (by omega) (by omega)
        omega
      obtain ⟨hne, hdigs, hval⟩ := ih (n / 10) hdivlt
      obtain ⟨hdig2, hval2⟩ := digitChar_spec (n % 10) (Nat.mod_lt n (by omega))
      refine ⟨by simp, ?_, ?_⟩
      · intro c hc
        rcases List.mem_append.mp hc with hc1 | hc2
        · exact hdigs c hc1
        · rw [List.mem_singleton.mp hc2]
          exact hdig2
      · rw [digitsVal_append_single, hval, hval2]
        omega

theorem natToStr_spec (n : Nat) :
    natToStr n ≠ [] ∧ (∀ c ∈ natToStr n, c.isDigit = true) ∧ digitsVal (natToStr n) = n :=
  natToStrAux_spec (n + 1) n (Nat.lt_succ_self n)

theorem isDigit_not_whitespace (c : Char) (h : c.isDigit = true) : c.isWhitespace = false := by
  cases hw : c.isWhitespace with
  | false => rfl
  | true =>
    exfalso
    have hcases := by simpa [Char.isWhitespace] using hw
    rcases hcases with ((rfl | rfl) | rfl) | rfl <;> exact absurd h (by decide)

theorem isDigit_not_sign (c : Char) (h : c.isDigit = true) : c ≠ '-' ∧ c ≠ '+' := by
  constructor <;> rintro rfl <;> exact absurd h (by decide)

theorem parseIntPos_natToStr (n : Nat) : parseIntPos (natToStr n) = some n := by
  obtain ⟨hne, hdigs, hval⟩ := natToStr_spec n
  rw [parseIntPos]
  rw [List.takeWhile_eq_self_iff.mpr hdigs]
  rw [if_neg (by simpa [List.isEmpty_iff] using hne), hval]

theorem parseIntJS_natToStr (n : Nat) : parseIntJS (natToStr n) = some (n : Int) := by
  obtain ⟨hne, hdigs, _⟩ := natToStr_spec n
  cases hs : natToStr n with
  | nil => exact absurd hs hne
  | cons c rest =>
    obtain ⟨hm, hp⟩ := isDigit_not_sign c (hdigs c (by rw [hs]; exact List.mem_cons_self c rest))
    rw [parseIntJS, if_neg hm, if_neg hp, ← hs, parseIntPos_natToStr]
    rfl

theorem parseTemporaryMinutes_intToStr (k : Int) (h0 : 0 ≤ k) (h1 : k ≤ 1440) :
    parseTemporaryMinutes (intToStr k) = some k := by
  rw [intToStr, if_neg (by omega)]
  obtain ⟨hne, hdigs, _⟩ := natToStr_spec k.toNat
  have htrim : jsTrim (natToStr k.toNat) = natToStr k.toNat :=
    jsTrim_eq_self _ (fun c hc => isDigit_not_whitespace c (hdigs c hc))
  simp only [parseTemporaryMinutes, htrim, parseIntJS_natToStr k.toNat]
  rw [if_neg (by simpa [List.isEmpty_iff] using hne), if_neg (by omega)]
  congr 1
  omega

/-! ### Export/import round trip: claim C6 (parsing and import lemmas) -/

theorem parseDomains_canonical (D : List Str)
    (hdom : ∀ d ∈ D, d ≠ [] ∧ jsTrim d = d ∧ jsToLower d = d ∧
      ∀ c ∈ d, (c = '\n' || c = ',') = false)
    (hnodup : D.Nodup) :
    parseDomains (List.intercalate ['\n'] D) = D := by
  cases D with
  | nil => decide
  | cons d0 rest =>
    rw [parseDomains]
    rw [splitOnPred_intercalate (fun c => c = '\n' || c = ',') '\n' (by decide)
      (d0 :: rest) (by simp) (fun d hd c hc => (hdom d hd).2.2.2 c hc)]
    have hmap : (d0 :: rest).map (fun item => jsToLower (jsTrim item)) = d0 :: rest := by
      have : ∀ d ∈ d0 :: rest, jsToLower (jsTrim d) = d := fun d hd => by
        rw [(hdom d hd).2.1, (hdom d hd).2.2.1]
      rw [List.map_congr_left this, List.map_id']
    rw [hmap]
    have hfil : (d0 :: rest).filter (fun item => !item.isEmpty) = d0 :: rest := by
      rw [List.filter_eq_self]
      intro a ha
      simp [List.isEmpty_iff, (hdom a ha).1]
    rw [hfil]
    exact dedupGo_eq_self [] (d0 :: rest) (by simp) hnodup

theorem importedHeadersRaw_export (enabledB : Bool) (payload : ValidatedPayload)
    (m : DomainMatchMode) :
    importedHeadersRaw (exportDoc enabledB payload m) = payload.headers := by
  show (payload.headers.map
      (fun h => JValue.jobj [("key", .jstr h.key), ("value", .jstr h.value)])).filterMap
      importHeaderItem = payload.headers
  rw [List.filterMap_map]
  have : (importHeaderItem ∘ fun h : HeaderConfig =>
      JValue.jobj [("key", .jstr h.key), ("value", .jstr h.value)]) = some := by
    funext h
    rfl
  rw [this, List.filterMap_some]

theorem importedDomainsOf_export (enabledB : Bool) (payload : ValidatedPayload)
    (m : DomainMatchMode) :
    importedDomainsOf (exportDoc enabledB payload m) = payload.domains := by
  show (payload.domains.map JValue.jstr).filterMap
      (fun v => match v with | .jstr s => some s | _ => none) = payload.domains
  rw [List.filterMap_map]
  have : ((fun v : JValue => match v with | .jstr s => some s | _ => none) ∘ JValue.jstr) =
      some := by
    funext s
    rfl
  rw [this, List.filterMap_some]

theorem importedModeOf_export (enabledB : Bool) (payload : ValidatedPayload)
    (m : DomainMatchMode) :
    importedModeOf (exportDoc enabledB payload m) = m := by
  cases m <;> rfl

theorem importedEnabledOf_export (enabledB : Bool) (payload : ValidatedPayload)
    (m : DomainMatchMode) :
    importedEnabledOf (exportDoc enabledB payload m) = enabledB := rfl

theorem importedMinutes_export (enabledB : Bool) (payload : ValidatedPayload)
    (m : DomainMatchMode) (h0 : 0 ≤ payload.temporaryMinutes)
    (h1 : payload.temporaryMinutes ≤ 1440) :
    importedTemporaryMinutes (jGet (exportDoc enabledB payload m) "temporaryMinutes") =
      payload.temporaryMinutes := by
  have hget : jGet (exportDoc enabledB payload m) "temporaryMinutes" =
      some (.jnum (payload.temporaryMinutes : ℚ)) := rfl
  rw [hget]
  show max 0 (min 1440 (jsRound (payload.temporaryMinutes : ℚ))) = payload.temporaryMinutes
  have hr : jsRound (payload.temporaryMinutes : ℚ) = payload.temporaryMinutes := by
    rw [jsRound, Int.floor_int_add]
    have h12 : ⌊(1 / 2 : ℚ)⌋ = 0 := by norm_num
    omega
  rw [hr]
  omega

/-- C6: exporting a validated configuration (non-empty headers, canonical
domain list, expiry minutes in range) and importing the produced document
restores the same configuration: the header sequence, the parsed domain
set, the match mode, the enabled flag, and the expiry-minutes value are
all preserved. -/
theorem export_import_roundtrip (enabledB : Bool) (H : List HeaderConfig) (D : List Str)
    (m : DomainMatchMode) (k : Int)
    (hH : H ≠ []) (hk0 : 0 ≤ k) (hk1 : k ≤ 1440)
    (hdom : ∀ d ∈ D, d ≠ [] ∧ jsTrim d = d ∧ jsToLower d = d ∧
      ∀ c ∈ d, (c = '\n' || c = ',') = false)
    (hnodup : D.Nodup) :
    (importConfig (exportDoc enabledB ⟨H, D, k⟩ m)).headers = H ∧
    (importConfig (exportDoc enabledB ⟨H, D, k⟩ m)).enabled = enabledB ∧
    parseDomains (importConfig (exportDoc enabledB ⟨H, D, k⟩ m)).domainInput = D ∧
    (importConfig (exportDoc enabledB ⟨H, D, k⟩ m)).domainMatchMode = m ∧
    parseTemporaryMinutes (importConfig (exportDoc enabledB ⟨H, D, k⟩ m)).temporaryMinutesInput =
      some k := by
  refine ⟨?_, ?_, ?_, ?_, ?_⟩
  · show (if (importedHeadersRaw (exportDoc enabledB ⟨H, D, k⟩ m)).isEmpty then DEFAULT_HEADERS
      else importedHeadersRaw (exportDoc enabledB ⟨H, D, k⟩ m)) = H
    rw [importedHeadersRaw_export]
    rw [if_neg (by simpa [List.isEmpty_iff] using hH)]
  · exact importedEnabledOf_export enabledB ⟨H, D, k⟩ m
  · show parseDomains (List.intercalate ['\n']
      (importedDomainsOf (exportDoc enabledB ⟨H, D, k⟩ m))) = D
    rw [importedDomainsOf_export]
    exact parseDomains_canonical D hdom hnodup
  · exact importedModeOf_export enabledB ⟨H, D, k⟩ m
  · show parseTemporaryMinutes (intToStr (importedTemporaryMinutes
      (jGet (exportDoc enabledB ⟨H, D, k⟩ m) "temporaryMinutes"))) = some k
    rw [importedMinutes_export enabledB ⟨H, D, k⟩ m hk0 hk1]
    exact parseTemporaryMinutes_intToStr k hk0 hk1

/-- Witness for C6 at a concrete one-header, one-domain configuration. -/
theorem export_import_roundtrip_witness :
    (importConfig (exportDoc true ⟨[⟨str "X-Test", str "123"⟩], [str "a.com"], 10⟩
        DomainMatchMode.exact)).headers = [⟨str "X-Test", str "123"⟩] ∧
    (importConfig (exportDoc true ⟨[⟨str "X-Test", str "123"⟩], [str "a.com"], 10⟩
        DomainMatchMode.exact)).enabled = true ∧
    parseDomains (importConfig (exportDoc true ⟨[⟨str "X-Test", str "123"⟩], [str "a.com"], 10⟩
        DomainMatchMode.exact)).domainInput = [str "a.com"] ∧
    (importConfig (exportDoc true ⟨[⟨str "X-Test", str "123"⟩], [str "a.com"], 10⟩
        DomainMatchMode.exact)).domainMatchMode = DomainMatchMode.exact ∧
    parseTemporaryMinutes (importConfig (exportDoc true
        ⟨[⟨str "X-Test", str "123"⟩], [str "a.com"], 10⟩
        DomainMatchMode.exact)).temporaryMinutesInput = some 10 :=
  export_import_roundtrip true [⟨str "X-Test", str "123"⟩] [str "a.com"]
    DomainMatchMode.exact 10 (by decide) (by decide) (by decide) (by decide) (by decide)

end HttpHeaderModifier
